import Mathlib

/-!
Verification of the readline library's history, completion, prompt and
main-loop components against its natural-language specification.

Conventions of the embedding:
- Go strings and rune slices ([]rune, core.Line) are modelled as `List Char`.
- Go `int` is modelled as `Int` where negative values or subtractions occur,
  and as `Nat` for cursor positions (which the code keeps non-negative).
- Fallible operations (GetLine) return `Option`; a `none` models a Go error.
- Go maps iterated in `Write` are modelled as association lists with a fixed
  iteration order (Go map order is unspecified; the claims proved here do not
  depend on the order except where explicitly noted).
-/

namespace Readline

/-- Whitespace trimming, modelling Go strings.TrimSpace (unicode space). -/
def trimSpace (s : List Char) : List Char :=
  ((s.dropWhile Char.isWhitespace).reverse.dropWhile Char.isWhitespace).reverse

/-- Modelled from the spec: the history source contract is `Len() int`,
`GetLine(i int) (string, error)`, `Write(s string) (int, error)`.  The
in-memory backend itself is not under src; as the `Walk` and `Complete`
methods of sources.go use it, index `0` holds the oldest line and `Len()-1`
the most recent one, `GetLine` fails out of range, and `Write` appends the
line, returning its index. -/
structure MemSource where
  lines : List (List Char)
  deriving DecidableEq, Repr

namespace MemSource

/-- Number of stored lines (Source.Len). -/
def len (s : MemSource) : Int := s.lines.length

/-- Fetch the line at an index; a `none` models the Go error return. -/
def getLine (s : MemSource) (i : Int) : Option (List Char) :=
  if i < 0 then none else s.lines.get? i.toNat

/-- Append a line, returning the new source and the written line's index. -/
def write (s : MemSource) (line : List Char) : MemSource × Int :=
  ({ lines := s.lines ++ [line] }, s.lines.length)

end MemSource

/-- State of the history sources manager (struct Sources of sources.go),
restricted to the fields the verified operations read or write.  The shell
line buffer and cursor the manager points to are inlined as fields. -/
structure Sources where
  list : List (List Char × MemSource)
  names : List (List Char)
  maxEntries : Int
  sourcePos : Nat
  buf : List Char
  hpos : Int
  infer : Bool
  line : List Char
  cursor : Nat
  cpos : Int
  hint : List Char
  preservePoint : Bool
  lineHists : List ((List Char × Int) × List Char)
  deriving DecidableEq, Repr

/-- Resolution of the history-size option performed by NewSources
(sources.go lines 64-71): a configured value of zero means unbounded (-1)
when the option string is unset, and 500 when it was explicitly set. -/
def resolveMaxEntries (configured : Int) (sizeSet : Bool) : Int :=
  if configured = 0 ∧ ¬sizeSet then -1
  else if configured = 0 ∧ sizeSet then 500
  else configured

/-- Association-list lookup, modelling a Go map read (first binding wins). -/
def lookupSource (name : List Char) : List (List Char × MemSource) → Option MemSource
  | [] => none
  | (n, s) :: rest => if n = name then some s else lookupSource name rest

namespace Sources

/-- Current returns the active history source (sources.go lines 280-286):
nil when no source is bound, otherwise the map entry of the current name. -/
def currentSource (h : Sources) : Option MemSource :=
  if h.list.length = 0 then none
  else (h.names.get? h.sourcePos).bind fun n => lookupSource n h.list

/-- Modelled from the spec: `getLineHistory` (the per-line undo store, whose
file is not under src) returns the latest edited state of the recalled
history line for the current source and history position, used by `Walk`
instead of the raw fetched line when the user edited that entry (spec 4.5). -/
def getLineHistory (h : Sources) : Option (List Char) :=
  (h.names.get? h.sourcePos).bind fun n =>
    (h.lineHists.find? fun e => e.1 = (n, h.hpos)).map (·.2)

/-- Hint message shown by Walk when fetching a history line fails. -/
def historyErrorHint : List Char := "history error".toList

/-- Cursor/line update applied when a recalled history line replaces the
buffer (setLineCursorMatch, sources.go lines 605-619): record the cursor
column once, then either preserve it (history-preserve-point) or jump to
the end of the recalled line. -/
def setLineCursorMatch (h : Sources) (next : List Char) : Sources :=
  let h1 :=
    if h.cpos = -1 ∧ 0 < h.line.length ∧ (h.cursor : Int) < (h.line.length : Int) - 1
    then { h with cpos := (h.cursor : Int) } else h
  let h2 := { h1 with line := next }
  if h2.preservePoint ∧ h2.cpos < (h2.line.length : Int) ∧ h2.cpos ≠ -1
  then { h2 with cursor := h2.cpos.toNat }
  else { h2 with cursor := h2.line.length }

/-- Body of Walk past its boundary guards (sources.go lines 178-212):
leaving position zero by exactly +1 stashes the live buffer into buf, the
position moves and is clamped, returning to zero restores the stash, and
any other landing position fetches the corresponding history line (or its
edited per-line-undo state), updating line and cursor. -/
def walkMove (h : Sources) (pos : Int) (hist : MemSource) : Sources :=
  let h1 := if h.hpos = 0 ∧ h.hpos + pos = 1 then { h with buf := h.line } else h
  let h2 := { h1 with hpos := h1.hpos + pos }
  let h3 :=
    if hist.len < h2.hpos then { h2 with hpos := hist.len }
    else if h2.hpos < 0 then { h2 with hpos := 0 }
    else if h2.hpos = 0 then
      { h2 with line := h2.buf, cursor := h2.buf.length }
    else h2
  if h3.hpos = 0 then h3
  else
    match h3.getLineHistory with
    | some edited => h3.setLineCursorMatch edited
    | none =>
      match hist.getLine (hist.len - h3.hpos) with
      | none => { h3 with hint := historyErrorHint }
      | some fetched => h3.setLineCursorMatch fetched

/-- Walk moves the history position by pos (sources.go lines 165-213): a
missing or empty source is a no-op, as is moving below position zero or
above the source length; otherwise the move is performed. -/
def walk (h : Sources) (pos : Int) : Sources :=
  match h.currentSource with
  | none => h
  | some hist =>
    if hist.len = 0 then h
    else if (pos < 0 ∧ h.hpos = 0) ∨ (pos > 0 ∧ h.hpos = hist.len) then h
    else h.walkMove pos hist

/-- Per-source loop body of Write (sources.go lines 304-328), iterating the
bound sources in order: a source is skipped when maxEntries is zero or at
least its length; writing stops entirely when the line equals the source's
last stored line; otherwise the line is appended and hpos receives the
written index. Returns the updated source list and the final hpos. -/
def writeToSources (maxEntries : Int) (line : List Char) (hpos : Int) :
    List (List Char × MemSource) → List (List Char × MemSource) × Int
  | [] => ([], hpos)
  | (name, hist) :: rest =>
    if maxEntries = 0 ∨ hist.len ≤ maxEntries then
      let next := writeToSources maxEntries line hpos rest
      ((name, hist) :: next.1, next.2)
    else
      let lastRes := hist.getLine (hist.len - 1)
      if lastRes.isSome ∧ lastRes.getD [] ≠ [] ∧ lastRes.getD [] = line then
        ((name, hist) :: rest, hpos)
      else
        let written := hist.write line
        let next := writeToSources maxEntries line written.2 rest
        ((name, written.1) :: next.1, next.2)

/-- Write stores the accepted input line into the history sources
(sources.go lines 292-329): with infer it only sets the infer flag, blank
lines are dropped, and otherwise every source receives the line through
the per-source loop. -/
def write (h : Sources) (infer : Bool) : Sources :=
  if infer then { h with infer := true }
  else if (trimSpace h.line).length = 0 then h
  else
    let result := writeToSources h.maxEntries h.line h.hpos h.list
    { h with list := result.1, hpos := result.2 }

/-- Per-candidate matching step of Sources.match (sources.go lines 572-595).
In regex mode the query is the input line truncated at the cursor when the
cursor lies inside it, quoted with regexp.QuoteMeta and therefore matching
exactly the history lines containing it literally as a substring (Go regexp
semantics of a quoted pattern; the compile of a quoted literal never fails).
In the default mode the whole input line must be a prefix of the candidate
(a too-short candidate is rejected first). -/
def matchesQuery (regex : Bool) (mline : List Char) (curPos : Option Nat)
    (histline : List Char) : Bool :=
  if regex then
    let query := match curPos with
      | some c => if c < mline.length then mline.take c else mline
      | none => mline
    decide (query <:+: histline)
  else
    decide (¬histline.length < mline.length) && decide (mline <+: histline)

/-- Iteration of the search loop of Sources.match: the continuation test is
checked on the current index, the index then moves one step in the search
direction, a fetch failure aborts the search, and the first matching line
is returned with its index. The fuel argument only bounds the recursion and
is chosen large enough to never be exhausted. -/
def matchLoop (hist : MemSource) (regex : Bool) (mline : List Char)
    (curPos : Option Nat) (fwd : Bool) : Int → Nat → Option (List Char × Int)
  | _, 0 => none
  | histPos, fuel + 1 =>
    if (if fwd then histPos < hist.len else 0 < histPos) then
      let next := if fwd then histPos + 1 else histPos - 1
      match hist.getLine next with
      | none => none
      | some histline =>
        if matchesQuery regex mline curPos histline then some (histline, next)
        else matchLoop hist regex mline curPos fwd next fuel
    else none

/-- Sources.match (sources.go lines 534-603): choose the starting index from
the direction, possibly overridden by the current history position, then
scan for the first matching line. -/
def matchSearch (h : Sources) (mline : List Char) (curPos : Option Nat)
    (usePos fwd regex : Bool) : Option (List Char × Int) :=
  if h.list.length = 0 then none
  else
    match h.currentSource with
    | none => none
    | some hist =>
      let start := if fwd then -1 else hist.len
      let start := if usePos ∧ 0 < h.hpos then hist.len - h.hpos else start
      matchLoop hist regex mline curPos fwd start (hist.len.toNat + 2)

/-- InsertMatch (sources.go lines 378-395): replace the buffer with the
first matching history line, updating hpos to Len minus the match index and
moving the cursor to the end of the inserted line. -/
def insertMatch (h : Sources) (mline : List Char) (curPos : Option Nat)
    (usePos fwd regex : Bool) : Sources :=
  if h.list.length = 0 then h
  else
    match h.currentSource with
    | none => h
    | some hist =>
      match h.matchSearch mline curPos usePos fwd regex with
      | none => h
      | some found =>
        { h with hpos := hist.len - found.2, line := found.1,
                 cursor := found.1.length }

end Sources

/-- Completion candidate (part_001): value, display, description, style and
tag components, all code-point strings. -/
structure Candidate where
  value : List Char
  display : List Char
  description : List Char
  style : List Char
  tag : List Char
  deriving DecidableEq, Repr

/-- Alias detection over a candidate list (completionsAreAliases, group.go
lines 594-610): collect the non-empty descriptions found at even indexes,
then report true when a candidate at an odd index carries one of them. -/
def completionsAreAliases (values : List Candidate) : Bool :=
  let oddValueMap :=
    ((values.enum.filter fun p =>
        decide (p.1 % 2 = 0) && decide (p.2.description ≠ [])).map
      fun p => p.2.description)
  values.enum.any fun p =>
    decide (p.1 % 2 ≠ 0) && oddValueMap.contains p.2.description &&
      decide (p.2.description ≠ [])

/-- Completion group state (struct group of group.go), restricted to the
fields touched by the isearch update: the candidate rows, the selector
coordinates, the column widths and the aliased flag. -/
structure Group where
  rows : List (List Candidate)
  posX : Int
  posY : Int
  columnsWidth : List Int
  aliased : Bool
  deriving DecidableEq, Repr

/-- Adjacent-duplicate removal, modelling slices.Compact as used on the
description list by group.updateIsearch. -/
def compactAdjacent : List (List Char) → List (List Char)
  | [] => []
  | [a] => [a]
  | a :: b :: rest =>
    if a = b then compactAdjacent (b :: rest)
    else a :: compactAdjacent (b :: rest)

/-- Triage of candidates by description (Engine.groupNonDescribed, group.go
lines 117-156): give each candidate a display string, divert the error
pseudo-candidates (a provably unreachable branch, kept for fidelity), then
split described from non-described candidates; when none is described the
two lists are swapped. -/
def groupNonDescribed (pfx : List Char) (values : List Candidate) :
    List Candidate × List Candidate × List (List Char) :=
  let state := values.foldl
    (fun (acc : List Candidate × List Candidate × List (List Char)) val =>
      let val := if val.display = [] then { val with display := val.value } else val
      if decide ((pfx ++ "ERR".toList) <+: val.value) &&
          decide (val.value = pfx ++ "_".toList) then acc
      else if val.description = [] then (acc.1, acc.2.1 ++ [val], acc.2.2)
      else (acc.1 ++ [val], acc.2.1, acc.2.2 ++ [val.description]))
    ([], [], [])
  if state.1 = [] then (state.2.1, [], state.2.2) else state

/-- Per-group isearch filtering (group.updateIsearch, group.go lines
308-347): with no compiled regex the group is returned untouched; otherwise
the candidates matching the regex on their value or description are
collected, the rows and selectors are reset, the aliased flag is recomputed
from adjacent duplicate descriptions, and the remaining re-initialization
routines are commented out in the source, so the rows stay empty. -/
def Group.updateIsearch (isearch : Option (List Char → Bool)) (pfx : List Char)
    (g : Group) : Group :=
  match isearch with
  | none => g
  | some rx =>
    let suggs := (g.rows.map fun row =>
      row.filter fun val =>
        rx val.value || (decide (val.description ≠ []) && rx val.description)).flatten
    let g2 := { g with rows := [], posX := -1, posY := -1, columnsWidth := [0] }
    let triaged := groupNonDescribed pfx suggs
    { g2 with aliased :=
        decide ((compactAdjacent triaged.2.2).length < triaged.2.2.length) }

/-- Hint line content, abstracting the formatted strings the engine sets
(the color constants live outside src): either unset, a plain message, or
the isearch prompt built from the search name and the minibuffer. -/
inductive HintMsg where
  | unset
  | message (s : List Char)
  | isearchPrompt (name buf : List Char)
  deriving DecidableEq, Repr

/-- Message shown when the isearch regexp fails to compile (part_002). -/
def compileFailMsg : List Char := "Failed to compile i-search regexp".toList

/-- Modelled from the spec: hasUpper (a helper not under src) scans the
query for any uppercase code point, implementing smart case. -/
def hasUpper (s : List Char) : Bool := s.any Char.isUpper

/-- Completion engine state (struct Engine), restricted to the fields used
by the incremental-search update: the minibuffer and its name, the compiled
matcher, the autoinsert flag, the hint, the current groups, the groups the
cached completer regenerates, and the quoting prefix. -/
structure IsearchEngineState where
  isearchName : List Char
  isearchBuf : List Char
  isearch : Option (List Char → Bool)
  isearchInsert : Bool
  hint : HintMsg
  groups : List Group
  cachedGroups : List Group
  pfx : List Char

/-- Regex source string compiled by updateIncrementalSearch (part_002 lines
137-142): the minibuffer itself under smart case, prefixed with the
case-insensitivity flag when it holds no uppercase. -/
def isearchRegexString (e : IsearchEngineState) : List Char :=
  if hasUpper e.isearchBuf then e.isearchBuf
  else "(?i)".toList ++ e.isearchBuf

/-- Modelled from the spec: Engine.Matches (not under src) counts the
candidates currently displayed across the groups. -/
def matchesCount (e : IsearchEngineState) : Nat :=
  (e.groups.map fun g => (g.rows.map List.length).sum).sum

/-- Modelled from the spec: Select(1, 0) virtually selects the first match;
only the selector coordinates of the first group move, the candidate rows
are untouched (the Select method is not under src). -/
def selectFirstMatch (e : IsearchEngineState) : IsearchEngineState :=
  { e with groups :=
      match e.groups with
      | [] => []
      | g :: rest => { g with posX := 0, posY := 0 } :: rest }

/-- Head of the incremental-search update (Engine.updateIncrementalSearch,
part_002 lines 136-157): compile the smart-case regex (a failure sets the
failure message on the hint and leaves the matcher nil), regenerate the
completions from the cached completer, then filter every group with the
matcher. The regexp compiler is passed in as a parameter since the regexp
engine is external. -/
def isearchFiltered (compile : List Char → Option (List Char → Bool))
    (e : IsearchEngineState) : IsearchEngineState :=
  let compiled := compile (isearchRegexString e)
  let e1 := { e with isearch := compiled }
  let e2 := if compiled.isNone then { e1 with hint := .message compileFailMsg } else e1
  let e3 := { e2 with groups := e2.cachedGroups }
  { e3 with groups := e3.groups.map (Group.updateIsearch e3.isearch e3.pfx) }

/-- Tail of the incremental-search update (part_002 lines 159-167): set the
isearch prompt on the hint, then virtually select the first match when
autoinsert applies to a non-empty minibuffer with matches. -/
def updateIncrementalSearch (compile : List Char → Option (List Char → Bool))
    (e : IsearchEngineState) : IsearchEngineState :=
  let e4 := isearchFiltered compile e
  let e5 := { e4 with hint := .isearchPrompt e4.isearchName e4.isearchBuf }
  if e4.isearchInsert ∧ 0 < matchesCount e4 ∧ 0 < e4.isearchBuf.length
  then selectFirstMatch e5 else e5

/-- Selection over a line buffer, modelled from the spec data model (the
core package is not under src): inactive, or an anchored range. A freshly
built selection (core.NewSelection) is inactive. -/
inductive SelectionState where
  | inactive
  | range (anchor : Int) (visualLine : Bool)
  deriving DecidableEq, Repr

/-- Completion engine state for GetBuffer (part_002 lines 40-55): the
isearch minibuffer and cursor, the virtually selected candidate value, the
virtually completed buffer with its cursor, and the real line, cursor and
selection. -/
structure BufferEngineState where
  isearchBuf : List Char
  isearchCur : Option Nat
  selectedValue : List Char
  completed : List Char
  compCursor : Nat
  line : List Char
  cursor : Nat
  selection : SelectionState
  deriving DecidableEq, Repr

/-- GetBuffer (part_002 lines 40-55): the isearch minibuffer with a fresh
selection while its cursor exists, else the virtually completed buffer when
a candidate value is selected, else the real line, cursor and selection. -/
def getBuffer (e : BufferEngineState) : List Char × Nat × SelectionState :=
  match e.isearchCur with
  | some cur => (e.isearchBuf, cur, .inactive)
  | none =>
    if 0 < e.selectedValue.length then (e.completed, e.compCursor, e.selection)
    else (e.line, e.cursor, e.selection)

/-- Right-prompt formatting result (Prompt.formatRightPrompt, prompt.go
lines 211-229): the computed padding and whether the prompt fits. -/
structure RightPromptFormat where
  padLen : Int
  canPrint : Bool
  deriving DecidableEq, Repr

/-- Prompt.formatRightPrompt (prompt.go lines 211-229): pad to the right
edge, with an adjustment when the start column equals the terminal width,
and allow printing when the prompt fits strictly before the right edge or
the start column equals the terminal width. -/
def formatRightPrompt (termWidth startColumn promptLen : Int) : RightPromptFormat :=
  let padLen := termWidth - startColumn - promptLen
  let padLen2 := if startColumn = termWidth then startColumn - promptLen else padLen
  { padLen := padLen2,
    canPrint := decide (startColumn + promptLen < termWidth) ||
      decide (startColumn = termWidth) }

/-- Terminal effect of Prompt.RightPrint: the padded prompt is printed, or
the rest of the line is cleared, or nothing happens. -/
inductive RightPromptAction where
  | printedPrompt (padLen : Int) (rprompt : List Char)
  | clearedLineAfter
  | noAction
  deriving DecidableEq, Repr

/-- Right-prompt string selection of RightPrint (prompt.go lines 163-176):
the tooltip when forced and bound, else the right prompt when bound. -/
def resolveRPrompt (tooltipF rightF : Option (List Char)) (force : Bool) : List Char :=
  let rprompt := match tooltipF with
    | some t => if force then t else []
    | none => []
  if rprompt = [] then
    match rightF with
    | some r => r
    | none => []
  else rprompt

/-- Prompt.RightPrint (prompt.go lines 163-183): resolve the prompt string,
do nothing when empty, print it when formatting allows, otherwise clear the
line after the cursor. The visual width function (strutil.RealLength, not
under src) is passed in as a parameter. -/
def rightPrint (tooltipF rightF : Option (List Char)) (force : Bool)
    (realLength : List Char → Int) (termWidth startColumn : Int) : RightPromptAction :=
  let rprompt := resolveRPrompt tooltipF rightF force
  if rprompt = [] then .noAction
  else
    let fmtd := formatRightPrompt termWidth startColumn (realLength rprompt)
    if fmtd.canPrint then .printedPrompt fmtd.padLen rprompt
    else .clearedLineAfter

/-- Outcome of running a bound command in the main loop, abstracting what
Shell.run observes of a command: whether it accepted the line and the line
it returns in that case. -/
structure Command where
  accepts : Bool
  result : List Char
  deriving DecidableEq, Repr

/-- Shell.run on a matched binding (part_003 lines 123-163): with no
command nothing runs and the line is not accepted; with a command its
acceptance status and resulting line are reported. -/
def runBind (cmd : Option Command) : Bool × List Char :=
  match cmd with
  | none => (false, [])
  | some c => (c.accepts, c.result)

/-- Observable effects of one iteration of the Readline loop: whether the
virtual completion was committed (completion.UpdateInserted ran), whether
the main keymap was consulted, whether the undefined-key handler was
invoked, and the line returned when the loop exited. -/
structure IterEffects where
  committedVirtual : Bool
  consultedMain : Bool
  invokedUndefinedHandler : Bool
  returned : Option (List Char)
  deriving DecidableEq, Repr

/-- One iteration of the Readline main loop (part_003 lines 41-95), from
the local keymap match on: a prefixed local match restarts the loop; a
matched local command runs and either returns the accepted line or
restarts the loop; only when the local keymap matched nothing is the
virtual completion committed and the main keymap consulted, whose command
may return the accepted line; finally the undefined-key handler runs. -/
def readlineIteration (localPrefixed : Bool) (localCmd : Option Command)
    (mainPrefixed : Bool) (mainCmd : Option Command) : IterEffects :=
  if localPrefixed then
    { committedVirtual := false, consultedMain := false,
      invokedUndefinedHandler := false, returned := none }
  else
    let localRun := runBind localCmd
    if localRun.1 then
      { committedVirtual := false, consultedMain := false,
        invokedUndefinedHandler := false, returned := some localRun.2 }
    else if localCmd.isSome then
      { committedVirtual := false, consultedMain := false,
        invokedUndefinedHandler := false, returned := none }
    else if mainPrefixed then
      { committedVirtual := true, consultedMain := true,
        invokedUndefinedHandler := false, returned := none }
    else
      let mainRun := runBind mainCmd
      if mainRun.1 then
        { committedVirtual := true, consultedMain := true,
          invokedUndefinedHandler := false, returned := some mainRun.2 }
      else
        { committedVirtual := true, consultedMain := true,
          invokedUndefinedHandler := true, returned := none }

/-!
Theorems. Each claim of the specification is settled by one theorem below,
with witnesses for the theorems that carry hypotheses and counterexamples
where the claim fails on the code.
-/

/-- C1: the claim states that Write appends exactly when the source length
is strictly below the ceiling (negative meaning unbounded, zero-with-setting
meaning 500, zero-without meaning unbounded). The constructor resolves the
ceiling as claimed, but the write guard is inverted: with a ceiling of 500
and an empty source the accepted line "hello" is refused, while with a
ceiling of 1 and a source already holding two lines the line "zz" is
written past the ceiling. -/
theorem write_ceiling_inverted :
    resolveMaxEntries 0 false = -1 ∧
    resolveMaxEntries 0 true = 500 ∧
    (let st : Sources :=
      { list := [("default".toList, ⟨[]⟩)], names := ["default".toList],
        maxEntries := 500, sourcePos := 0, buf := [], hpos := 0, infer := false,
        line := "hello".toList, cursor := 5, cpos := -1, hint := [],
        preservePoint := false, lineHists := [] }
     st.write false = st ∧ (trimSpace st.line).length ≠ 0) ∧
    (let st2 : Sources :=
      { list := [("default".toList, ⟨["a".toList, "b".toList]⟩)],
        names := ["default".toList],
        maxEntries := 1, sourcePos := 0, buf := [], hpos := 0, infer := false,
        line := "zz".toList, cursor := 2, cpos := -1, hint := [],
        preservePoint := false, lineHists := [] }
     (st2.write false).list =
       [("default".toList, ⟨["a".toList, "b".toList, "zz".toList]⟩)]) := by
  decide

/-- C2: the claim states that Walk(+k) followed by Walk(-k) restores hpos
and, when ending at hpos 0, restores the live buffer exactly. hpos is
restored, but the live buffer is stashed only when leaving hpos 0 by
exactly +1: starting from the live line "abc" with an empty stash,
Walk(2) followed by Walk(-2) ends at hpos 0 with an empty line, while
Walk(1) does stash "abc". -/
theorem walk_roundtrip_loses_buffer :
    (let st : Sources :=
      { list := [("default".toList, ⟨["x".toList, "y".toList]⟩)],
        names := ["default".toList], maxEntries := -1, sourcePos := 0,
        buf := [], hpos := 0, infer := false, line := "abc".toList,
        cursor := 3, cpos := -1, hint := [], preservePoint := false,
        lineHists := [] }
     ((st.walk 2).walk (-2)).hpos = 0 ∧
       ((st.walk 2).walk (-2)).line = [] ∧
       st.line = "abc".toList ∧
       (st.walk 2).buf = [] ∧
       (st.walk 1).buf = "abc".toList) := by
  decide

/-- C9: GetBuffer returns the isearch minibuffer and its cursor (with a
fresh inactive selection) whenever the isearch cursor exists, regardless of
any virtually inserted candidate; with no isearch cursor it returns the
virtually completed buffer when a candidate value is selected, and the real
line, cursor and selection otherwise. -/
theorem getBuffer_views (e : BufferEngineState) :
    (∀ cur, e.isearchCur = some cur →
      getBuffer e = (e.isearchBuf, cur, SelectionState.inactive)) ∧
    (e.isearchCur = none → 0 < e.selectedValue.length →
      getBuffer e = (e.completed, e.compCursor, e.selection)) ∧
    (e.isearchCur = none → e.selectedValue.length = 0 →
      getBuffer e = (e.line, e.cursor, e.selection)) := by
  refine ⟨fun cur hc => ?_, fun hc hs => ?_, fun hc hs => ?_⟩
  · simp [getBuffer, hc]
  · simp [getBuffer, hc, hs]
  · simp [getBuffer, hc, hs]

theorem getBuffer_views_witness :
    getBuffer
      { isearchBuf := "q".toList, isearchCur := some 1,
        selectedValue := "cand".toList, completed := "c".toList,
        compCursor := 1, line := "l".toList, cursor := 0,
        selection := SelectionState.inactive } =
      ("q".toList, 1, SelectionState.inactive) :=
  (getBuffer_views _).1 1 rfl

/-- C10: Walk is a complete no-op at the history boundaries: when the
active source is missing or empty, when the delta is negative at hpos 0,
and when the delta is positive at hpos Len, the whole state (line, cursor,
hpos and the stashed buffer included) is returned unchanged. -/
theorem walk_boundary_noop (h : Sources) (pos : Int)
    (hb : h.currentSource = none ∨
      (∃ s, h.currentSource = some s ∧ s.len = 0) ∨
      (pos < 0 ∧ h.hpos = 0) ∨
      (∃ s, h.currentSource = some s ∧ 0 < pos ∧ h.hpos = s.len)) :
    h.walk pos = h := by
  have hdisp : ∀ s, h.currentSource = some s →
      h.walk pos = if s.len = 0 then h
        else if (pos < 0 ∧ h.hpos = 0) ∨ (pos > 0 ∧ h.hpos = s.len) then h
        else h.walkMove pos s := by
    intro s hs
    unfold Sources.walk
    rw [hs]
  rcases hb with hnone | ⟨s, hs, hlen⟩ | ⟨hneg, hzero⟩ | ⟨s, hs, hpos', hlen⟩
  · unfold Sources.walk
    rw [hnone]
  · rw [hdisp s hs, if_pos hlen]
  · cases hc : h.currentSource with
    | none => unfold Sources.walk; rw [hc]
    | some s =>
      rw [hdisp s hc]
      by_cases hl : s.len = 0
      · rw [if_pos hl]
      · rw [if_neg hl, if_pos (Or.inl ⟨hneg, hzero⟩)]
  · rw [hdisp s hs]
    by_cases hl : s.len = 0
    · rw [if_pos hl]
    · rw [if_neg hl, if_pos (Or.inr ⟨hpos', hlen⟩)]

theorem walk_boundary_noop_witness :
    Sources.walk
      { list := [("default".toList, ⟨["x".toList]⟩)],
        names := ["default".toList], maxEntries := -1, sourcePos := 0,
        buf := [], hpos := 0, infer := false, line := "ab".toList,
        cursor := 2, cpos := -1, hint := [], preservePoint := false,
        lineHists := [] } (-1) =
      { list := [("default".toList, ⟨["x".toList]⟩)],
        names := ["default".toList], maxEntries := -1, sourcePos := 0,
        buf := [], hpos := 0, infer := false, line := "ab".toList,
        cursor := 2, cpos := -1, hint := [], preservePoint := false,
        lineHists := [] } :=
  walk_boundary_noop _ _ (Or.inr (Or.inr (Or.inl (by decide))))

/-- C3: in one iteration of the main read loop the virtual completion is
committed (completion.UpdateInserted runs) only when the local keymap
match was neither prefixed nor produced a command; whenever the local
keymap dispatches a command, the iteration neither commits the virtual
completion nor consults the main keymap, returning the accepted line when
the command accepted and otherwise continuing to the next pass. -/
theorem local_dispatch_blocks_commit (lp : Bool) (lc : Option Command)
    (mp : Bool) (mc : Option Command) :
    ((readlineIteration lp lc mp mc).committedVirtual = true →
      lp = false ∧ lc = none) ∧
    (∀ c, lc = some c → lp = false →
      (readlineIteration lp lc mp mc).committedVirtual = false ∧
      (readlineIteration lp lc mp mc).consultedMain = false ∧
      (c.accepts = true →
        (readlineIteration lp lc mp mc).returned = some c.result) ∧
      (c.accepts = false →
        (readlineIteration lp lc mp mc).returned = none)) := by
  constructor
  · intro hcommit
    cases lp with
    | true => simp [readlineIteration] at hcommit
    | false =>
      refine ⟨rfl, ?_⟩
      cases lc with
      | none => rfl
      | some c =>
        cases hA : c.accepts <;>
          simp [readlineIteration, runBind, hA] at hcommit
  · rintro c rfl rfl
    cases hA : c.accepts <;> simp [readlineIteration, runBind, hA]

theorem local_dispatch_blocks_commit_witness :
    (readlineIteration false (some { accepts := false, result := [] })
      false none).committedVirtual = false ∧
    (readlineIteration false (some { accepts := false, result := [] })
      false none).consultedMain = false ∧
    (readlineIteration false (some { accepts := false, result := [] })
      false none).returned = none := by
  have h := (local_dispatch_blocks_commit false
      (some { accepts := false, result := [] }) false none).2
      { accepts := false, result := [] } rfl rfl
  exact ⟨h.1, h.2.1, h.2.2.2 rfl⟩

/-- C4: the claim states that InsertMatch with substring true matches
case-insensitively under smart case. It does not: the query is quoted as a
literal regex with no case-insensitivity flag. With history ["A"], the
all-lowercase query "a" and the cursor at 1, the claimed smart-case match
exists (the lowercased query occurs in the lowercased candidate) yet the
search finds nothing and InsertMatch leaves the state unchanged. -/
theorem insertMatch_no_smart_case :
    (let st : Sources :=
      { list := [("default".toList, ⟨["A".toList]⟩)],
        names := ["default".toList], maxEntries := -1, sourcePos := 0,
        buf := [], hpos := 0, infer := false, line := "a".toList,
        cursor := 1, cpos := -1, hint := [], preservePoint := false,
        lineHists := [] }
     st.insertMatch "a".toList (some 1) false false true = st ∧
       st.matchSearch "a".toList (some 1) false false true = none) ∧
    hasUpper "a".toList = false ∧
    ("a".toList.map Char.toLower <:+: "A".toList.map Char.toLower) := by
  decide

/-- C4 (amended): the matching step of the history search is
case-sensitive in both modes: with substring true the candidate must
contain, literally, the query truncated at the cursor when the cursor lies
inside the line; with substring false the whole query line must be a
prefix of the candidate. -/
theorem matchesQuery_characterization (mline histline : List Char) (c : Nat) :
    (Sources.matchesQuery true mline (some c) histline = true ↔
      (if c < mline.length then mline.take c else mline) <:+: histline) ∧
    (Sources.matchesQuery false mline none histline = true ↔
      mline <+: histline) := by
  constructor
  · simp [Sources.matchesQuery]
  · simp only [Sources.matchesQuery, Bool.false_eq_true, if_false,
      Bool.and_eq_true, decide_eq_true_eq]
    constructor
    · rintro ⟨-, hpre⟩
      exact hpre
    · intro hpre
      exact ⟨Nat.not_lt.mpr hpre.length_le, hpre⟩

/-- Helper for C5: the per-source write loop leaves every source whose
last stored line equals the written line untouched (the duplicate check
either skips it or aborts the whole write before reaching it). -/
theorem writeToSources_keeps_dup (me : Int) (line : List Char)
    (hline : line ≠ []) :
    ∀ (l : List (List Char × MemSource)) (hp : Int) (i : Nat)
      (name : List Char) (hist : MemSource),
      l[i]? = some (name, hist) →
      hist.getLine (hist.len - 1) = some line →
      (Sources.writeToSources me line hp l).1[i]? = some (name, hist) := by
  intro l
  induction l with
  | nil => intro hp i name hist hget _; simp at hget
  | cons hd rest ih =>
    intro hp i name hist hget hlast
    obtain ⟨n, s⟩ := hd
    unfold Sources.writeToSources
    by_cases hskip : me = 0 ∨ s.len ≤ me
    · rw [if_pos hskip]
      cases i with
      | zero => simpa using hget
      | succ i =>
        simp only [List.getElem?_cons_succ] at hget ⊢
        exact ih hp i name hist hget hlast
    · rw [if_neg hskip]
      cases i with
      | zero =>
        simp only [List.getElem?_cons_zero, Option.some.injEq] at hget
        have hn : n = name := congrArg Prod.fst hget
        have hsh : s = hist := congrArg Prod.snd hget
        subst hn; subst hsh
        rw [if_pos (by rw [hlast]; exact ⟨rfl, hline, rfl⟩)]
        simp
      | succ i =>
        by_cases hdup : (s.getLine (s.len - 1)).isSome ∧
            (s.getLine (s.len - 1)).getD [] ≠ [] ∧
            (s.getLine (s.len - 1)).getD [] = line
        · rw [if_pos hdup]
          simpa using hget
        · rw [if_neg hdup]
          simp only [List.getElem?_cons_succ] at hget ⊢
          exact ih (s.write line).2 i name hist hget hlast

/-- C5 (amended): Write never stores a line identical to the most recent
entry of a source, which in the code's indexing sits at the last index
Len-1 (index 0 holds the oldest line): every source whose last stored line
equals the written line is left unchanged, so consecutive identical
accepted lines are stored at most once. -/
theorem write_keeps_duplicate_of_most_recent (st : Sources) (i : Nat)
    (name : List Char) (hist : MemSource)
    (hget : st.list[i]? = some (name, hist))
    (hlast : hist.getLine (hist.len - 1) = some st.line) :
    (st.write false).list[i]? = some (name, hist) := by
  by_cases hb : (trimSpace st.line).length = 0
  · have heq : st.write false = st := by
      unfold Sources.write
      rw [if_neg (by decide), if_pos hb]
    rw [heq]
    exact hget
  · have hne : st.line ≠ [] := fun hEq => hb (by rw [hEq]; rfl)
    have heq : (st.write false).list =
        (Sources.writeToSources st.maxEntries st.line st.hpos st.list).1 := by
      unfold Sources.write
      rw [if_neg (by decide), if_neg hb]
    rw [heq]
    exact writeToSources_keeps_dup st.maxEntries st.line hne st.list st.hpos
      i name hist hget hlast

theorem write_keeps_duplicate_witness :
    (Sources.write
      { list := [("default".toList, ⟨["a".toList, "b".toList]⟩)],
        names := ["default".toList], maxEntries := -1, sourcePos := 0,
        buf := [], hpos := 0, infer := false, line := "b".toList,
        cursor := 1, cpos := -1, hint := [], preservePoint := false,
        lineHists := [] } false).list[0]? =
      some ("default".toList, ⟨["a".toList, "b".toList]⟩) :=
  write_keeps_duplicate_of_most_recent _ 0 _ _ (by decide) (by decide)

/-- C5 (counterexample): the claim places the most recent entry at index
0. With the source ["a", "b"] (index 0 oldest) and unbounded size, writing
"a" - identical to the entry the claim calls most recent - does store it,
because the duplicate check compares against the entry at the last index. -/
theorem write_duplicate_checks_newest_entry :
    (let st : Sources :=
      { list := [("default".toList, ⟨["a".toList, "b".toList]⟩)],
        names := ["default".toList], maxEntries := -1, sourcePos := 0,
        buf := [], hpos := 0, infer := false, line := "a".toList,
        cursor := 1, cpos := -1, hint := [], preservePoint := false,
        lineHists := [] }
     (st.write false).list =
        [("default".toList, ⟨["a".toList, "b".toList, "a".toList]⟩)] ∧
       (⟨["a".toList, "b".toList]⟩ : MemSource).getLine 0 =
         some "a".toList) := by
  decide

/-- Helper for C6: virtually selecting the first match only moves selector
coordinates, never the candidate rows of any group. -/
theorem selectFirstMatch_rows (e : IsearchEngineState) :
    (selectFirstMatch e).groups.map Group.rows = e.groups.map Group.rows := by
  unfold selectFirstMatch
  cases e.groups <;> rfl

/-- C6 (amended): when compiling the isearch minibuffer as a regexp fails,
the matcher is left unset and the failure message reaches the hint only
transiently: the update still regenerates the completions from the cached
completer (the unset matcher then leaves each regenerated group's rows
unfiltered), and the hint ends up overwritten with the regular isearch
prompt. -/
theorem isearch_compile_failure_behavior
    (compile : List Char → Option (List Char → Bool)) (e : IsearchEngineState)
    (hfail : compile (isearchRegexString e) = none) :
    (updateIncrementalSearch compile e).isearch = none ∧
    (updateIncrementalSearch compile e).hint =
      HintMsg.isearchPrompt e.isearchName e.isearchBuf ∧
    (updateIncrementalSearch compile e).groups.map Group.rows =
      e.cachedGroups.map Group.rows := by
  have hid : Group.updateIsearch none e.pfx = id := funext fun g => rfl
  have hsearch : (isearchFiltered compile e).isearch = none := by
    unfold isearchFiltered
    rw [hfail]
    rfl
  have hname : (isearchFiltered compile e).isearchName = e.isearchName := by
    unfold isearchFiltered
    rw [hfail]
    rfl
  have hbuf : (isearchFiltered compile e).isearchBuf = e.isearchBuf := by
    unfold isearchFiltered
    rw [hfail]
    rfl
  have hgroups : (isearchFiltered compile e).groups = e.cachedGroups := by
    unfold isearchFiltered
    rw [hfail]
    show e.cachedGroups.map (Group.updateIsearch none e.pfx) = e.cachedGroups
    rw [hid, List.map_id]
  unfold updateIncrementalSearch
  dsimp only
  split
  · refine ⟨?_, ?_, ?_⟩
    · show (isearchFiltered compile e).isearch = none
      exact hsearch
    · show HintMsg.isearchPrompt (isearchFiltered compile e).isearchName
        (isearchFiltered compile e).isearchBuf =
        HintMsg.isearchPrompt e.isearchName e.isearchBuf
      rw [hname, hbuf]
    · rw [selectFirstMatch_rows]
      show ((isearchFiltered compile e).groups).map Group.rows =
        e.cachedGroups.map Group.rows
      rw [hgroups]
  · refine ⟨?_, ?_, ?_⟩
    · show (isearchFiltered compile e).isearch = none
      exact hsearch
    · show HintMsg.isearchPrompt (isearchFiltered compile e).isearchName
        (isearchFiltered compile e).isearchBuf =
        HintMsg.isearchPrompt e.isearchName e.isearchBuf
      rw [hname, hbuf]
    · show ((isearchFiltered compile e).groups).map Group.rows =
        e.cachedGroups.map Group.rows
      rw [hgroups]

theorem isearch_compile_failure_witness :
    (updateIncrementalSearch (fun _ => none)
      { isearchName := "history".toList, isearchBuf := "(".toList,
        isearch := none, isearchInsert := false, hint := HintMsg.unset,
        groups := [], cachedGroups := [], pfx := [] }).hint =
      HintMsg.isearchPrompt "history".toList "(".toList :=
  (isearch_compile_failure_behavior (fun _ => none)
    { isearchName := "history".toList, isearchBuf := "(".toList,
      isearch := none, isearchInsert := false, hint := HintMsg.unset,
      groups := [], cachedGroups := [], pfx := [] } rfl).2.1

/-- C6 (counterexample): with a failing compile, a previously emptied group
list and one cached group, the claim fails on both conjuncts: the final
hint is the regular isearch prompt rather than the failure message, and
the candidate list changes (it is regenerated from the cached groups). -/
theorem isearch_compile_failure_not_preserved :
    (let cand : Candidate :=
      { value := "v".toList, display := "v".toList, description := [],
        style := [], tag := [] }
     let g : Group :=
      { rows := [[cand]], posX := -1, posY := -1, columnsWidth := [0],
        aliased := false }
     let e : IsearchEngineState :=
      { isearchName := "history".toList, isearchBuf := "(".toList,
        isearch := none, isearchInsert := false, hint := HintMsg.unset,
        groups := [], cachedGroups := [g], pfx := [] }
     let res := updateIncrementalSearch (fun _ => none) e
     res.hint = HintMsg.isearchPrompt "history".toList "(".toList ∧
       res.hint ≠ HintMsg.message compileFailMsg ∧
       res.groups ≠ e.groups) := by
  decide

/-- C7 (amended): a candidate list is classified as aliased exactly when
some candidate at an even index and some candidate at an odd index carry
the same non-empty description; same-parity sharing alone is not seen. -/
theorem completionsAreAliases_iff (values : List Candidate) :
    completionsAreAliases values = true ↔
      ∃ i j ci cj, values[i]? = some ci ∧ values[j]? = some cj ∧
        i % 2 = 0 ∧ j % 2 = 1 ∧ ci.description = cj.description ∧
        cj.description ≠ [] := by
  unfold completionsAreAliases
  rw [List.any_eq_true]
  constructor
  · rintro ⟨⟨j, cj⟩, hmem, hpred⟩
    rw [Bool.and_eq_true, Bool.and_eq_true, List.contains, List.elem_iff] at hpred
    simp only [decide_eq_true_eq, List.mem_map, List.mem_filter] at hpred
    obtain ⟨⟨hodd, ⟨⟨i, ci⟩, ⟨hmemi, hfilt⟩, hdesc⟩⟩, hne⟩ := hpred
    simp only [Bool.and_eq_true, decide_eq_true_eq] at hfilt
    rw [List.mk_mem_enum_iff_getElem?] at hmem hmemi
    refine ⟨i, j, ci, cj, hmemi, hmem, hfilt.1, ?_, hdesc, hne⟩
    omega
  · rintro ⟨i, j, ci, cj, hgi, hgj, hie, hjo, hdesc, hne⟩
    refine ⟨(j, cj), ?_, ?_⟩
    · rw [List.mk_mem_enum_iff_getElem?]; exact hgj
    · rw [Bool.and_eq_true, Bool.and_eq_true, List.contains, List.elem_iff]
      simp only [decide_eq_true_eq, List.mem_map, List.mem_filter]
      refine ⟨⟨by omega, ⟨(i, ci), ⟨?_, ?_⟩, ?_⟩⟩, hne⟩
      · rw [List.mk_mem_enum_iff_getElem?]; exact hgi
      · simp only [Bool.and_eq_true, decide_eq_true_eq]
        refine ⟨hie, ?_⟩
        rw [hdesc]; exact hne
      · exact hdesc

/-- C7 (counterexample): two candidates, both at even indexes 0 and 2,
share the non-empty description "d"; the claim then calls the group
aliased, yet the classification returns false because it only pairs an
even index with an odd one. -/
theorem completionsAreAliases_misses_even_pair :
    (let c0 : Candidate :=
      { value := "a".toList, display := [], description := "d".toList,
        style := [], tag := [] }
     let c1 : Candidate :=
      { value := "b".toList, display := [], description := [],
        style := [], tag := [] }
     let c2 : Candidate :=
      { value := "c".toList, display := [], description := "d".toList,
        style := [], tag := [] }
     completionsAreAliases [c0, c1, c2] = false ∧
       c0.description = c2.description ∧
       c2.description ≠ []) := by
  decide

/-- C8 (amended): the right prompt or tooltip, once resolved non-empty, is
printed exactly when the start column plus the prompt's width is strictly
below the terminal width or the start column equals the terminal width;
only otherwise is the area cleared to end of line. -/
theorem rightPrint_condition (tooltipF rightF : Option (List Char))
    (force : Bool) (realLength : List Char → Int) (termWidth startColumn : Int)
    (hne : resolveRPrompt tooltipF rightF force ≠ []) :
    (rightPrint tooltipF rightF force realLength termWidth startColumn =
        RightPromptAction.printedPrompt
          (formatRightPrompt termWidth startColumn
            (realLength (resolveRPrompt tooltipF rightF force))).padLen
          (resolveRPrompt tooltipF rightF force) ↔
      (startColumn + realLength (resolveRPrompt tooltipF rightF force) <
          termWidth ∨ startColumn = termWidth)) ∧
    (rightPrint tooltipF rightF force realLength termWidth startColumn =
        RightPromptAction.clearedLineAfter ↔
      ¬(startColumn + realLength (resolveRPrompt tooltipF rightF force) <
          termWidth ∨ startColumn = termWidth)) := by
  unfold rightPrint
  rw [if_neg hne]
  by_cases hc : startColumn +
      realLength (resolveRPrompt tooltipF rightF force) < termWidth ∨
      startColumn = termWidth
  · have hcp : (formatRightPrompt termWidth startColumn
        (realLength (resolveRPrompt tooltipF rightF force))).canPrint = true := by
      unfold formatRightPrompt
      simp only [Bool.or_eq_true, decide_eq_true_eq]
      exact hc
    rw [if_pos hcp]
    simp [hc]
  · have hcp : ¬((formatRightPrompt termWidth startColumn
        (realLength (resolveRPrompt tooltipF rightF force))).canPrint = true) := by
      unfold formatRightPrompt
      simp only [Bool.or_eq_true, decide_eq_true_eq]
      exact hc
    rw [if_neg hcp]
    simp [hc]

theorem rightPrint_condition_witness :
    rightPrint none (some "abc".toList) false (fun s => (s.length : Int))
      80 10 = RightPromptAction.printedPrompt 67 "abc".toList :=
  (rightPrint_condition none (some "abc".toList) false
    (fun s => (s.length : Int)) 80 10 (by decide)).1.mpr (by decide)

/-- C8 (counterexample): with the terminal width 80, a start column of 80
and a right prompt of width 2, the claimed condition start column plus
width strictly below the terminal width fails, yet the prompt is printed
rather than the area being cleared, through the extra equality branch. -/
theorem rightPrompt_printed_at_full_width :
    rightPrint none (some "ab".toList) false (fun s => (s.length : Int))
      80 80 = RightPromptAction.printedPrompt 78 "ab".toList ∧
    ¬((80 : Int) + 2 < 80) := by
  decide

end Readline
